import Mathlib

/-!
# Verification of the decyb JSON-to-GPX converter

A shallow embedding of the transformation logic of `json2gpx.js` and
`json2gpx_with_overlay.js` (the decyb CLI converter), together with proofs
about the claims of the specification.

Modelling conventions:
* JavaScript numbers that carry integer data (boat ids, timestamps, and the
  per-moment numeric fields) are modelled as `Int`; their interpolation into
  template strings is `Int.repr`, matching JS `String(n)` on integers.
* Optional JSON fields are `Option`; JS `x || d` on strings is `jsOr`
  (both `undefined` and the empty string are falsy).
* `Array.prototype.sort` with the comparator `(a, b) => a.at - b.at` is
  required by ECMAScript to be a stable sort; a stable sort by a fixed key
  has a unique result, modelled here by `List.insertionSort`.
* The wall-clock reads `new Date().toISOString()` are modelled by passing
  the produced ISO string as an explicit `now` argument.
* The JS field `at` of a moment is called `att` here (`at` is a Lean keyword).
-/

/-- The character `"` (kept out of character-literal syntax). -/
def quotC : Char := Char.ofNat 34

/-- The character `'` (kept out of character-literal syntax). -/
def aposC : Char := Char.ofNat 39

/-- The character `<`. -/
def ltC : Char := '<'

/-- Replace every occurrence of the single character `c` by `rep`, the list
semantics of the JS global single-character regex replace `.replace(/c/g, rep)`. -/
def replCh (c : Char) (rep : List Char) : List Char → List Char
  | [] => []
  | x :: xs => (if x = c then rep else [x]) ++ replCh c rep xs

/-- `escapeXml` from `json2gpx.js` (lines 54–62): `if (!text) return ''`, then the
five sequential global replaces for `&`, `<`, `>`, `"`, `'`. -/
def escapeXml (text : String) : String :=
  if text = "" then ""
  else
    String.mk
      (replCh aposC "&apos;".data
        (replCh quotC "&quot;".data
          (replCh '>' "&gt;".data
            (replCh ltC "&lt;".data
              (replCh '&' "&amp;".data text.data)))))

/-- The per-character escaping table that the five sequential replaces realise. -/
def escCharList (c : Char) : List Char :=
  if c = '&' then "&amp;".data
  else if c = ltC then "&lt;".data
  else if c = '>' then "&gt;".data
  else if c = quotC then "&quot;".data
  else if c = aposC then "&apos;".data
  else [c]

/-- Character-wise expansion of a list by the escaping table. -/
def escListAll : List Char → List Char
  | [] => []
  | c :: cs => escCharList c ++ escListAll cs

theorem replCh_append (c : Char) (rep : List Char) :
    ∀ a b : List Char, replCh c rep (a ++ b) = replCh c rep a ++ replCh c rep b
  | [], _ => rfl
  | x :: xs, b => by
    show (if x = c then rep else [x]) ++ replCh c rep (xs ++ b) =
      ((if x = c then rep else [x]) ++ replCh c rep xs) ++ replCh c rep b
    rw [replCh_append c rep xs b, List.append_assoc]

/-- The expansion of a single escaped character through the last four passes. -/
theorem escape_chain_single (x : Char) :
    replCh aposC "&apos;".data
      (replCh quotC "&quot;".data
        (replCh '>' "&gt;".data
          (replCh ltC "&lt;".data
            (if x = '&' then "&amp;".data else [x])))) = escCharList x := by
  by_cases h1 : x = '&'
  · subst h1; decide
  · by_cases h2 : x = ltC
    · subst h2; decide
    · by_cases h3 : x = '>'
      · subst h3; decide
      · by_cases h4 : x = quotC
        · subst h4; decide
        · by_cases h5 : x = aposC
          · subst h5; decide
          · rw [if_neg h1]
            simp [replCh, escCharList, h1, h2, h3, h4, h5]

/-- The five sequential replaces act character-wise: later passes do not touch the
output of earlier ones. -/
theorem escape_chain_eq_escListAll :
    ∀ l : List Char,
      replCh aposC "&apos;".data
        (replCh quotC "&quot;".data
          (replCh '>' "&gt;".data
            (replCh ltC "&lt;".data
              (replCh '&' "&amp;".data l)))) = escListAll l
  | [] => rfl
  | x :: xs => by
    have hx : replCh '&' "&amp;".data (x :: xs) =
        (if x = '&' then "&amp;".data else [x]) ++ replCh '&' "&amp;".data xs := rfl
    rw [hx, replCh_append, replCh_append, replCh_append, replCh_append,
      escape_chain_eq_escListAll xs, escape_chain_single x]
    rfl

theorem string_ext {s t : String} (h : s.data = t.data) : s = t := by
  cases s; cases t; exact congrArg String.mk h

theorem escapeXml_data (s : String) : (escapeXml s).data = escListAll s.data := by
  unfold escapeXml
  by_cases h : s = ""
  · subst h; rfl
  · rw [if_neg h, escape_chain_eq_escListAll]

theorem ltC_not_mem_escCharList (c : Char) : ltC ∉ escCharList c := by
  by_cases h1 : c = '&'
  · subst h1; decide
  · by_cases h2 : c = ltC
    · subst h2; decide
    · by_cases h3 : c = '>'
      · subst h3; decide
      · by_cases h4 : c = quotC
        · subst h4; decide
        · by_cases h5 : c = aposC
          · subst h5; decide
          · simp [escCharList, h1, h2, h3, h4, h5, Ne.symm h2]

theorem ltC_not_mem_escListAll : ∀ l : List Char, ltC ∉ escListAll l
  | [] => by simp [escListAll]
  | c :: cs => by
    simp only [escListAll, List.mem_append, not_or]
    exact ⟨ltC_not_mem_escCharList c, ltC_not_mem_escListAll cs⟩

theorem ltC_not_mem_escapeXml (s : String) : ltC ∉ (escapeXml s).data := by
  rw [escapeXml_data]; exact ltC_not_mem_escListAll s.data

/-- A character that is not one of the five reserved characters escapes to itself. -/
theorem escCharList_eq_self {c : Char} (h1 : c ≠ '&') (h2 : c ≠ ltC) (h3 : c ≠ '>')
    (h4 : c ≠ quotC) (h5 : c ≠ aposC) : escCharList c = [c] := by
  simp [escCharList, h1, h2, h3, h4, h5]

theorem escListAll_eq_self :
    ∀ {l : List Char},
      (∀ c ∈ l, c ≠ '&' ∧ c ≠ ltC ∧ c ≠ '>' ∧ c ≠ quotC ∧ c ≠ aposC) →
      escListAll l = l
  | [], _ => rfl
  | c :: cs, h => by
    have hc := h c (by simp)
    simp only [escListAll, escCharList_eq_self hc.1 hc.2.1 hc.2.2.1 hc.2.2.2.1 hc.2.2.2.2]
    simp only [List.singleton_append, List.cons.injEq, true_and]
    exact escListAll_eq_self (fun d hd => h d (by simp [hd]))

/-- A string containing none of the five reserved characters is fixed by `escapeXml`. -/
theorem escapeXml_eq_self {s : String}
    (h : ∀ c ∈ s.data, c ≠ '&' ∧ c ≠ ltC ∧ c ≠ '>' ∧ c ≠ quotC ∧ c ≠ aposC) :
    escapeXml s = s := by
  apply string_ext
  rw [escapeXml_data, escListAll_eq_self h]

/-! ## Substring occurrence counting

`countSub pat s` counts the positions of `s` at which the pattern `pat` occurs.
It is the tool used to state how many times a given tag appears in generated
XML text. -/

/-- `leadsWith pat s` holds when `s` starts with the block `pat`. -/
def leadsWith : List Char → List Char → Bool
  | [], _ => true
  | _ :: _, [] => false
  | p :: ps, c :: cs => if p = c then leadsWith ps cs else false

/-- Number of positions of `s` at which `pat` occurs (occurrences may overlap). -/
def countSub (pat : List Char) : List Char → Nat
  | [] => 0
  | c :: cs => (if leadsWith pat (c :: cs) = true then 1 else 0) + countSub pat cs

/-- Occurrences of `pat` in the text of a string. -/
def countSubStr (pat s : String) : Nat := countSub pat.data s.data

theorem leadsWith_false_of_short :
    ∀ {pat s : List Char}, s.length < pat.length → leadsWith pat s = false
  | [], _, h => absurd h (by simp)
  | _ :: _, [], _ => rfl
  | p :: ps, c :: cs, h => by
    show (if p = c then leadsWith ps cs else false) = false
    by_cases hc : p = c
    · rw [if_pos hc, leadsWith_false_of_short (by simpa using h)]
    · rw [if_neg hc]

theorem leadsWith_append :
    ∀ (pat s t : List Char), pat.length ≤ s.length →
      leadsWith pat (s ++ t) = leadsWith pat s
  | [], _, _, _ => rfl
  | p :: ps, [], _, h => absurd h (by simp)
  | p :: ps, c :: cs, t, h => by
    show (if p = c then leadsWith ps (cs ++ t) else false) =
      (if p = c then leadsWith ps cs else false)
    by_cases hc : p = c
    · rw [if_pos hc, if_pos hc, leadsWith_append ps cs t (by simpa using h)]
    · rw [if_neg hc, if_neg hc]

theorem leadsWith_swap :
    ∀ (x pat b : List Char), x.length ≤ pat.length →
      leadsWith pat (x ++ b) = true → leadsWith x pat = true
  | [], _, _, _, _ => rfl
  | c :: xs, [], _, h, _ => absurd h (by simp)
  | c :: xs, p :: ps, b, h, hl => by
    have hl' : (if p = c then leadsWith ps (xs ++ b) else false) = true := hl
    by_cases hc : p = c
    · rw [if_pos hc] at hl'
      show (if c = p then leadsWith xs ps else false) = true
      rw [if_pos hc.symm]
      exact leadsWith_swap xs ps b (by simpa using h) hl'
    · rw [if_neg hc] at hl'
      exact absurd hl' (by simp)

/-- `sepOK pat a`: no nonempty strict final segment of `a` is an initial block
of `pat`, so no occurrence of `pat` can straddle the boundary after `a`. -/
def sepOK (pat a : List Char) : Prop :=
  ∀ j, j < pat.length → 1 ≤ j → j ≤ a.length →
    leadsWith (a.drop (a.length - j)) pat = false

instance (pat a : List Char) : Decidable (sepOK pat a) := by
  unfold sepOK; infer_instance

theorem sepOK_of_head_not_mem {h : Char} {ps a : List Char} (hm : h ∉ a) :
    sepOK (h :: ps) a := by
  intro j hj h1 h2
  have hlen : (a.drop (a.length - j)).length = j := by
    rw [List.length_drop]; omega
  cases hd : a.drop (a.length - j) with
  | nil => rw [hd] at hlen; simp at hlen; omega
  | cons d rest =>
    have hdmem : d ∈ a := List.mem_of_mem_drop (by rw [hd]; simp)
    show (if d = h then leadsWith rest ps else false) = false
    rw [if_neg (fun he : d = h => hm (he ▸ hdmem))]

theorem drop_append_len :
    ∀ (x y : List Char) (k : Nat), (x ++ y).drop (x.length + k) = y.drop k
  | [], _, _ => by simp
  | c :: xs, y, k => by
    have harith : (c :: xs).length + k = (xs.length + k) + 1 := by simp; omega
    rw [harith]
    show (xs ++ y).drop (xs.length + k) = y.drop k
    exact drop_append_len xs y k

theorem sepOK_append_right {pat : List Char} (x : List Char) {y : List Char}
    (hlen : pat.length ≤ y.length + 1) (hy : sepOK pat y) : sepOK pat (x ++ y) := by
  intro j hj h1 h2
  have hjy : j ≤ y.length := by omega
  have : (x ++ y).length - j = x.length + (y.length - j) := by
    rw [List.length_append]; omega
  rw [this, drop_append_len]
  exact hy j hj h1 hjy

theorem countSub_append_sep {pat : List Char} (hne : pat ≠ []) :
    ∀ (a b : List Char), sepOK pat a →
      countSub pat (a ++ b) = countSub pat a + countSub pat b
  | [], b, _ => by simp [countSub]
  | c :: a', b, hsep => by
    have hsep' : sepOK pat a' := by
      intro j hj h1 h2
      have hstep := hsep j hj h1 (by simp; omega)
      have harith : (c :: a').length - j = (a'.length - j) + 1 := by simp; omega
      rw [harith] at hstep
      simpa using hstep
    have IH := countSub_append_sep hne a' b hsep'
    show (if leadsWith pat (c :: (a' ++ b)) = true then 1 else 0) + countSub pat (a' ++ b)
      = ((if leadsWith pat (c :: a') = true then 1 else 0) + countSub pat a') + countSub pat b
    have hhead : leadsWith pat (c :: (a' ++ b)) = leadsWith pat (c :: a') := by
      by_cases hlen : pat.length ≤ a'.length + 1
      · have : c :: (a' ++ b) = (c :: a') ++ b := rfl
        rw [this, leadsWith_append pat (c :: a') b (by simpa using hlen)]
      · rw [show leadsWith pat (c :: a') = false from
          leadsWith_false_of_short (by simp; omega)]
        cases hl : leadsWith pat (c :: (a' ++ b)) with
        | false => rfl
        | true =>
          have hx := leadsWith_swap (c :: a') pat b (by simp; omega) hl
          have hcontr := hsep (a'.length + 1) (by omega) (by omega) (by simp)
          have : (c :: a').length - (a'.length + 1) = 0 := by simp
          rw [this, List.drop_zero] at hcontr
          rw [hx] at hcontr
          exact absurd hcontr (by simp)
    rw [hhead, IH]
    omega

theorem countSub_zero_of_head_not_mem {h : Char} {ps : List Char} :
    ∀ {s : List Char}, h ∉ s → countSub (h :: ps) s = 0
  | [], _ => rfl
  | c :: cs, hm => by
    simp only [List.mem_cons, not_or] at hm
    show (if leadsWith (h :: ps) (c :: cs) = true then 1 else 0) + countSub (h :: ps) cs = 0
    have : leadsWith (h :: ps) (c :: cs) = false := by
      show (if h = c then leadsWith ps cs else false) = false
      rw [if_neg hm.1]
    rw [this, countSub_zero_of_head_not_mem hm.2]
    simp

/-- Concatenation of a list of strings (right fold; used to restate the
incremental `+=` string building of the source). -/
def strJoin : List String → String
  | [] => ""
  | s :: rest => s ++ strJoin rest

theorem strAppend_assoc (a b c : String) : (a ++ b) ++ c = a ++ (b ++ c) := by
  apply string_ext
  simp [List.append_assoc]

theorem strAppend_empty (a : String) : a ++ "" = a := by
  apply string_ext
  simp

theorem strJoin_append : ∀ l1 l2 : List String, strJoin (l1 ++ l2) = strJoin l1 ++ strJoin l2
  | [], l2 => by
    show strJoin l2 = "" ++ strJoin l2
    apply string_ext; simp
  | s :: rest, l2 => by
    show s ++ strJoin (rest ++ l2) = (s ++ strJoin rest) ++ strJoin l2
    rw [strJoin_append rest l2, strAppend_assoc]

theorem countSubStr_strJoin {pat : String} (hne : pat.data ≠ []) :
    ∀ pieces : List String, (∀ p ∈ pieces, sepOK pat.data p.data) →
      countSubStr pat (strJoin pieces) = (pieces.map (countSubStr pat)).sum
  | [], _ => rfl
  | p :: ps, hsep => by
    show countSubStr pat (p ++ strJoin ps) = countSubStr pat p + (ps.map (countSubStr pat)).sum
    unfold countSubStr
    rw [String.data_append, countSub_append_sep hne p.data (strJoin ps).data (hsep p (by simp))]
    have IH := countSubStr_strJoin hne ps (fun q hq => hsep q (by simp [hq]))
    unfold countSubStr at IH
    rw [IH]

/-- `noLt s`: the string `s` contains no `<` character, hence cannot start or
contain an occurrence of any tag pattern. -/
def noLt (s : String) : Prop := ltC ∉ s.data

instance (s : String) : Decidable (noLt s) := by
  unfold noLt; infer_instance

theorem sepOK_of_noLt {pat s : String} {tl : List Char} (hp : pat.data = ltC :: tl)
    (hs : noLt s) : sepOK pat.data s.data := by
  rw [hp]; exact sepOK_of_head_not_mem hs

theorem countSubStr_zero_of_noLt {pat s : String} {tl : List Char}
    (hp : pat.data = ltC :: tl) (hs : noLt s) : countSubStr pat s = 0 := by
  unfold countSubStr
  rw [hp]; exact countSub_zero_of_head_not_mem hs

theorem noLt_escapeXml (s : String) : noLt (escapeXml s) := ltC_not_mem_escapeXml s

/-- A string that ends (definitionally) in a long enough fixed tail inherits the
tail's boundary safety. -/
theorem sepOK_of_split {pat : String} {s x y : String} (hs : s = x ++ y)
    (hlen : pat.data.length ≤ y.data.length + 1) (hy : sepOK pat.data y.data) :
    sepOK pat.data s.data := by
  rw [hs, String.data_append]
  exact sepOK_append_right x.data hlen hy

/-! ## Decimal rendering of numbers

The JS template interpolation `${n}` on an integer-valued number renders its
decimal digits, i.e. `Int.repr`.  Every character of such a rendering is a
digit or a minus sign, so rendered numbers never contain reserved characters. -/

theorem digitChar_isDigit : ∀ d, d < 10 → (Nat.digitChar d).isDigit = true := by
  decide

theorem toDigitsCore_digits :
    ∀ (fuel n : Nat) (ds : List Char), (∀ c ∈ ds, c.isDigit = true) →
      ∀ c ∈ Nat.toDigitsCore 10 fuel n ds, c.isDigit = true
  | 0, _, _, hds => hds
  | fuel + 1, n, ds, hds => by
    show ∀ c ∈ (if n / 10 = 0 then Nat.digitChar (n % 10) :: ds
        else Nat.toDigitsCore 10 fuel (n / 10) (Nat.digitChar (n % 10) :: ds)),
      c.isDigit = true
    have hd : (Nat.digitChar (n % 10)).isDigit = true :=
      digitChar_isDigit _ (Nat.mod_lt _ (by omega))
    have hds' : ∀ c ∈ Nat.digitChar (n % 10) :: ds, c.isDigit = true := by
      intro c hc
      rcases List.mem_cons.mp hc with h | h
      · rw [h]; exact hd
      · exact hds c h
    by_cases hz : n / 10 = 0
    · rw [if_pos hz]; exact hds'
    · rw [if_neg hz]; exact toDigitsCore_digits fuel (n / 10) _ hds'

theorem natRepr_digits (n : Nat) : ∀ c ∈ (Nat.repr n).data, c.isDigit = true := by
  intro c hc
  exact toDigitsCore_digits (n + 1) n [] (by simp) c hc

theorem intRepr_chars (i : Int) : ∀ c ∈ (Int.repr i).data, c.isDigit = true ∨ c = '-' := by
  intro c hc
  cases i with
  | ofNat m => exact Or.inl (natRepr_digits m c hc)
  | negSucc m =>
    have : (Int.repr (Int.negSucc m)).data = '-' :: (Nat.repr (m + 1)).data := rfl
    rw [this] at hc
    rcases List.mem_cons.mp hc with h | h
    · exact Or.inr h
    · exact Or.inl (natRepr_digits (m + 1) c h)

theorem noLt_intRepr (i : Int) : noLt (Int.repr i) := by
  intro hmem
  rcases intRepr_chars i ltC hmem with h | h
  · exact absurd h (by decide)
  · exact absurd h (by decide)

theorem escapeXml_intRepr_aux (i : Int) :
    ∀ c ∈ (Int.repr i).data, c ≠ '&' ∧ c ≠ ltC ∧ c ≠ '>' ∧ c ≠ quotC ∧ c ≠ aposC := by
  intro c hc
  rcases intRepr_chars i c hc with h | h
  · refine ⟨?_, ?_, ?_, ?_, ?_⟩ <;> (intro he; rw [he] at h; exact absurd h (by decide))
  · rw [h]; decide

/-! ## `timestampToISO`

`timestampToISO` from `json2gpx.js` (lines 49–51): `new Date(t * 1000).toISOString()`.
The proleptic-Gregorian conversion of JS `Date` is implemented directly
(floored division throughout, as JS date arithmetic requires). -/

/-- Convert a day count (days since 1970-01-01) to `(year, month, day)`. -/
def civilFromDays (z0 : Int) : Int × Nat × Nat :=
  let z := z0 + 719468
  let era : Int := z.fdiv 146097
  let doe : Nat := (z - era * 146097).toNat
  let yoe : Nat := (doe - doe / 1460 + doe / 36524 - doe / 146096) / 365
  let doy : Nat := doe - (365 * yoe + yoe / 4 - yoe / 100)
  let mp : Nat := (5 * doy + 2) / 153
  let d : Nat := doy - (153 * mp + 2) / 5 + 1
  let m : Nat := if mp < 10 then mp + 3 else mp - 9
  (if m ≤ 2 then (yoe : Int) + era * 400 + 1 else (yoe : Int) + era * 400, m, d)

/-- Left-pad the decimal rendering of `n` with zeros to width `w`. -/
def padNum (w n : Nat) : String :=
  String.mk (List.replicate (w - (Nat.repr n).length) '0') ++ Nat.repr n

/-- The year field of `Date.prototype.toISOString` (four digits, or an
expanded six-digit form with sign outside 0000–9999). -/
def isoYearStr (y : Int) : String :=
  if 0 ≤ y then
    if y ≤ 9999 then padNum 4 y.toNat else "+" ++ padNum 6 y.toNat
  else "-" ++ padNum 6 (-y).toNat

def timestampToISO (timestamp : Int) : String :=
  let ms := timestamp * 1000
  let days := ms.fdiv 86400000
  let msod : Nat := (ms - days * 86400000).toNat
  let ymd := civilFromDays days
  isoYearStr ymd.1 ++ "-" ++ padNum 2 ymd.2.1 ++ "-" ++ padNum 2 ymd.2.2 ++ "T" ++
    padNum 2 (msod / 3600000) ++ ":" ++ padNum 2 (msod % 3600000 / 60000) ++ ":" ++
    padNum 2 (msod % 60000 / 1000) ++ "." ++ padNum 3 (msod % 1000) ++ "Z"

theorem noLt_padNum (w n : Nat) : noLt (padNum w n) := by
  intro hmem
  rw [show (padNum w n).data
      = List.replicate (w - (Nat.repr n).length) '0' ++ (Nat.repr n).data from rfl] at hmem
  rcases List.mem_append.mp hmem with h | h
  · have := List.eq_of_mem_replicate h
    exact absurd this (by decide)
  · exact absurd (natRepr_digits n ltC h) (by decide)

theorem noLt_isoYearStr (y : Int) : noLt (isoYearStr y) := by
  unfold isoYearStr
  by_cases h0 : 0 ≤ y
  · rw [if_pos h0]
    by_cases h1 : y ≤ 9999
    · rw [if_pos h1]; exact noLt_padNum 4 y.toNat
    · rw [if_neg h1]
      intro hmem
      rw [String.data_append] at hmem
      rcases List.mem_append.mp hmem with h | h
      · exact absurd h (by decide)
      · exact noLt_padNum 6 y.toNat h
  · rw [if_neg h0]
    intro hmem
    rw [String.data_append] at hmem
    rcases List.mem_append.mp hmem with h | h
    · exact absurd h (by decide)
    · exact noLt_padNum 6 (-y).toNat h

theorem noLt_append {a b : String} (ha : noLt a) (hb : noLt b) : noLt (a ++ b) := by
  intro hmem
  rw [String.data_append] at hmem
  rcases List.mem_append.mp hmem with h | h
  · exact ha h
  · exact hb h

theorem noLt_timestampToISO (t : Int) : noLt (timestampToISO t) := by
  unfold timestampToISO
  refine noLt_append (noLt_append (noLt_append (noLt_append (noLt_append (noLt_append
    (noLt_append (noLt_append (noLt_append (noLt_append (noLt_append (noLt_append
      (noLt_append (noLt_isoYearStr _) ?_) (noLt_padNum _ _)) ?_) (noLt_padNum _ _)) ?_)
        (noLt_padNum _ _)) ?_) (noLt_padNum _ _)) ?_) (noLt_padNum _ _)) ?_)
          (noLt_padNum _ _)) ?_ <;> (intro hmem; exact absurd hmem (by decide))

/-! ## Data model

Shapes of the parsed JSON inputs (`AllPositions3.json`, `RaceSetup.json`) and of
the overlay records assembled in `json2gpx_with_overlay.js`'s `main`. -/

/-- One tracked point of a boat.  JS fields: `lat`, `lon`, `at` (here `att`),
and the optional `dtf`, `alt`, `lap`, `pc`. -/
structure Moment where
  lat : Int
  lon : Int
  att : Int
  dtf : Option Int := none
  alt : Option Int := none
  lap : Option Int := none
  pc : Option Int := none
deriving DecidableEq

/-- One element of the positions array: a boat id with its moments. -/
structure PositionRecord where
  id : Int
  moments : List Moment
deriving DecidableEq

/-- One element of `raceSetup.teams`. -/
structure TeamRecord where
  id : Int
  name : Option String := none
  owner : Option String := none
  model : Option String := none
  country : Option String := none
  sail : Option String := none
deriving DecidableEq

/-- The parsed `RaceSetup.json` (only the fields the converter reads). -/
structure RaceSetup where
  title : Option String := none
  teams : Option (List TeamRecord) := none
deriving DecidableEq

/-- JS `v || d` for an optional string: `undefined`, `null` and `""` are falsy. -/
def jsOr (v : Option String) (d : String) : String :=
  match v with
  | some s => if s = "" then d else s
  | none => d

/-- The `boatToTeam` lookup object: `raceSetup.teams.forEach(team =>
boatToTeam[team.id] = team)`, i.e. a left fold of keyed updates, so a later
team overwrites an earlier one with the same id. -/
def buildBoatToTeam (teams : List TeamRecord) : Int → Option TeamRecord :=
  teams.foldl (fun m t => fun i => if i = t.id then some t else m i) (fun _ => none)

/-- `boatToTeam[boat.id]`, guarded by `if (raceSetup.teams)` (an absent teams
array leaves the lookup object empty). -/
def teamFor (setup : RaceSetup) (bid : Int) : Option TeamRecord :=
  buildBoatToTeam (setup.teams.getD []) bid

/-- `team ? (team.name || `Boat ${boat.id}`) : `Boat ${boat.id}`` -/
def boatNameOf (team : Option TeamRecord) (bid : Int) : String :=
  match team with
  | some t => jsOr t.name ("Boat " ++ Int.repr bid)
  | none => "Boat " ++ Int.repr bid

/-- `team ? (team.owner || 'Unknown') : 'Unknown'` -/
def ownerOf (team : Option TeamRecord) : String :=
  match team with
  | some t => jsOr t.owner "Unknown"
  | none => "Unknown"

/-- `team ? (team.model || 'Unknown') : 'Unknown'` -/
def modelOf (team : Option TeamRecord) : String :=
  match team with
  | some t => jsOr t.model "Unknown"
  | none => "Unknown"

/-- `team ? (team.country || 'Unknown') : 'Unknown'` -/
def countryOf (team : Option TeamRecord) : String :=
  match team with
  | some t => jsOr t.country "Unknown"
  | none => "Unknown"

/-- `team ? (team.sail || '') : ''` -/
def sailOf (team : Option TeamRecord) : String :=
  match team with
  | some t => jsOr t.sail ""
  | none => ""

/-- The track description: `Boat ID: …, Owner: …, Model: …, Country: …`, with
`, Sail: …` appended only when the sail number is truthy. -/
def descOf (team : Option TeamRecord) (bid : Int) : String :=
  let d := "Boat ID: " ++ Int.repr bid ++ ", Owner: " ++ ownerOf team ++ ", Model: "
    ++ modelOf team ++ ", Country: " ++ countryOf team
  if sailOf team ≠ "" then d ++ ", Sail: " ++ sailOf team else d

/-- Ordering of moments used by `boat.moments.sort((a, b) => a.at - b.at)`. -/
def momLE (a b : Moment) : Prop := a.att ≤ b.att

instance : DecidableRel momLE := fun a b => inferInstanceAs (Decidable (a.att ≤ b.att))

instance : IsTotal Moment momLE := ⟨fun a b => Int.le_total a.att b.att⟩

instance : IsTrans Moment momLE := ⟨fun _ _ _ h1 h2 => Int.le_trans h1 h2⟩

/-- `boat.moments.sort((a, b) => a.at - b.at)`: the ECMAScript-mandated stable
sort by timestamp (its unique result, realised by insertion sort). -/
def sortMoments (ms : List Moment) : List Moment := ms.insertionSort momLE

/-- The serialized `<trkpt>` element of one moment (`json2gpx.js` lines 110–134):
required `lat`/`lon`/`time`/`dtf` (the latter defaulting to 0), and `ele`, `lap`,
`pc` only when the corresponding source field is present. -/
def pointBlock (m : Moment) : String :=
  "      <trkpt lat=\"" ++ Int.repr m.lat ++ "\" lon=\"" ++ Int.repr m.lon
    ++ "\">\n        <time>" ++ timestampToISO m.att
    ++ "</time>\n        <extensions>\n          <dtf>" ++ Int.repr (m.dtf.getD 0)
    ++ "</dtf>"
    ++ (match m.alt with
        | some v => "\n          <ele>" ++ Int.repr v ++ "</ele>"
        | none => "")
    ++ (match m.lap with
        | some v => "\n          <lap>" ++ Int.repr v ++ "</lap>"
        | none => "")
    ++ (match m.pc with
        | some v => "\n          <pc>" ++ Int.repr v ++ "</pc>"
        | none => "")
    ++ "\n        </extensions>\n      </trkpt>\n"

/-- The `<name>` content of a boat track:
`${escapeXml(boatName)} (${escapeXml(owner)})`. -/
def trkNameContent (team : Option TeamRecord) (bid : Int) : String :=
  escapeXml (boatNameOf team bid) ++ " (" ++ escapeXml (ownerOf team) ++ ")"

/-- The serialized `<trk>` block of one boat (`json2gpx.js` lines 87–139). -/
def boatBlock (setup : RaceSetup) (boat : PositionRecord) : String :=
  let team := teamFor setup boat.id
  "  <trk>\n    <name>" ++ trkNameContent team boat.id ++ "</name>\n    <desc>"
    ++ escapeXml (descOf team boat.id) ++ "</desc>\n    <trkseg>\n"
    ++ (sortMoments boat.moments).foldl (fun g m => g ++ pointBlock m) ""
    ++ "    </trkseg>\n  </trk>\n"

/-- The XML declaration and metadata block (`json2gpx.js` lines 69–76).
`now` is the ISO string produced by `new Date().toISOString()`. -/
def gpxHeader (setup : RaceSetup) (now : String) : String :=
  "<?xml version=\"1.0\" encoding=\"UTF-8\"?>\n<gpx version=\"1.1\" creator=\"decyb-gpx-converter\" xmlns=\"http://www.topografix.com/GPX/1/1\">\n  <metadata>\n    <name>"
    ++ escapeXml (jsOr setup.title "Sailing Race")
    ++ "</name>\n    <time>" ++ now
    ++ "</time>\n    <desc>Converted from race data using decyb-gpx-converter</desc>\n  </metadata>\n"

/-- `generateGPX` from `json2gpx.js` (lines 65–143): header, one track block per
position record (in array order), and the closing tag. -/
def generateGPX (positions : List PositionRecord) (raceSetup : RaceSetup)
    (now : String) : String :=
  (positions.foldl (fun gpx boat => gpx ++ boatBlock raceSetup boat)
    (gpxHeader raceSetup now)) ++ "</gpx>"

/-- The state of the `positions` argument after `generateGPX` returns:
`boat.moments.sort(...)` sorts each moments array in place, so each boat's
moments hold the timestamp-sorted permutation of their previous contents. -/
def generateGPXFinal (positions : List PositionRecord) : List PositionRecord :=
  positions.map (fun b => { b with moments := sortMoments b.moments })

/-! ## Overlay support (`json2gpx_with_overlay.js`)

`parseGpxTrack` scans foreign GPX text with regular expressions.  The regex
loops are embedded as recursive scanners over the character list; the recursion
is driven by a fuel argument bounded by the input length (each iteration of the
source loop advances `lastIndex` by at least one character). -/

/-- Split `s` at the first occurrence of `pat`: the part before the occurrence
and the part after it (`none` when `pat` does not occur). -/
def splitAtSub (pat : List Char) : List Char → Option (List Char × List Char)
  | [] => none
  | c :: cs =>
    if leadsWith pat (c :: cs) = true then some ([], (c :: cs).drop pat.length)
    else
      match splitAtSub pat cs with
      | some (pre, post) => some (c :: pre, post)
      | none => none

/-- Like `splitAtSub`, but the scan fails upon reaching the character `stop`
before `pat` (the `[^>]*` constraint of the point regex). -/
def splitAtSubStop (stop : Char) (pat : List Char) : List Char → Option (List Char × List Char)
  | [] => none
  | c :: cs =>
    if leadsWith pat (c :: cs) = true then some ([], (c :: cs).drop pat.length)
    else if c = stop then none
    else
      match splitAtSubStop stop pat cs with
      | some (pre, post) => some (c :: pre, post)
      | none => none

/-- Contents of the successive `<trk[^>]*>([\s\S]*?)<\/trk>` matches: after each
`<trk`, the tag runs to the first `>`, and the (lazy) content to the first
`</trk>`. -/
def extractTracksGo : Nat → List Char → List (List Char)
  | 0, _ => []
  | fuel + 1, s =>
    match splitAtSub "<trk".data s with
    | none => []
    | some (_, r1) =>
      match splitAtSub ['>'] r1 with
      | none => []
      | some (_, r2) =>
        match splitAtSub "</trk>".data r2 with
        | none => []
        | some (content, r3) => content :: extractTracksGo fuel r3

def extractTracks (s : List Char) : List (List Char) := extractTracksGo s.length s

/-- First `opn([^<]*)cls` match: the regexes `<name>([^<]*)<\/name>` and
`<time>([^<]*)<\/time>`. -/
def findElemTextGo (opn cls : List Char) : Nat → List Char → Option (List Char)
  | 0, _ => none
  | fuel + 1, s =>
    match splitAtSub opn s with
    | none => none
    | some (_, r1) =>
      let cap := r1.takeWhile (fun c => ¬(c = ltC))
      if leadsWith cls (r1.drop cap.length) = true then some cap
      else findElemTextGo opn cls fuel r1

def findElemText (opn cls : List Char) (s : List Char) : Option (List Char) :=
  findElemTextGo opn cls s.length s

/-- A point extracted from an overlay document. `lat` and `lon` hold the text
captured for `parseFloat`; `att` the text handed to `new Date(...)`, `none`
standing for a missing `<time>` element (where the source falls back to the
extraction wall-clock time `Date.now() / 1000`).  Numeric conversion is outside
the embedding. -/
structure OverlayPoint where
  lat : String
  lon : String
  att : Option String
deriving DecidableEq

/-- One attempted match of
`<trkpt[^>]*lat="([^"]*)"[^>]*lon="([^"]*)"[^>]*>([\s\S]*?)<\/trkpt>` starting
right after a `<trkpt` literal: `lat="`, the quoted capture, `lon="`, the quoted
capture (both attribute scans stopped by `>`), the end of the opening tag, and
the lazy content up to `</trkpt>`. -/
def parsePointAt (r1 : List Char) : Option (OverlayPoint × List Char) :=
  match splitAtSubStop '>' "lat=\"".data r1 with
  | none => none
  | some (_, r2) =>
    let latCap := r2.takeWhile (fun c => ¬(c = quotC))
    if leadsWith [quotC] (r2.drop latCap.length) = true then
      match splitAtSubStop '>' "lon=\"".data (r2.drop (latCap.length + 1)) with
      | none => none
      | some (_, r4) =>
        let lonCap := r4.takeWhile (fun c => ¬(c = quotC))
        if leadsWith [quotC] (r4.drop lonCap.length) = true then
          match splitAtSub ['>'] (r4.drop (lonCap.length + 1)) with
          | none => none
          | some (_, r6) =>
            match splitAtSub "</trkpt>".data r6 with
            | none => none
            | some (content, r7) =>
              some (⟨String.mk latCap, String.mk lonCap,
                (findElemText "<time>".data "</time>".data content).map String.mk⟩, r7)
        else none
    else none

/-- The `trkptRegex` loop over one track's content: successive point matches;
a failed match attempt resumes the scan after the failed `<trkpt` literal. -/
def extractPointsGo : Nat → List Char → List OverlayPoint
  | 0, _ => []
  | fuel + 1, s =>
    match splitAtSub "<trkpt".data s with
    | none => []
    | some (_, r1) =>
      match parsePointAt r1 with
      | some (p, rest) => p :: extractPointsGo fuel rest
      | none => extractPointsGo fuel r1

def extractPoints (s : List Char) : List OverlayPoint := extractPointsGo s.length s

/-- A track extracted from an overlay document. -/
structure OverlayTrack where
  name : String
  points : List OverlayPoint
deriving DecidableEq

/-- `parseGpxTrack` from `json2gpx_with_overlay.js` (lines 134–173): for every
`<trk>` block, the track name (defaulting to `Unknown Track`) and the extracted
points; blocks with zero points are dropped. -/
def parseGpxTrack (gpxData : String) : List OverlayTrack :=
  ((extractTracks gpxData.data).map (fun content =>
    OverlayTrack.mk
      (match findElemText "<name>".data "</name>".data content with
        | some cap => String.mk cap
        | none => "Unknown Track")
      (extractPoints content))).filter (fun t => t.points.length > 0)

/-- A point of an overlay track as fed to `generateGPXWithOverlays` (numeric
lat/lon/at values, seconds). -/
structure OvPoint where
  lat : Int
  lon : Int
  att : Int
deriving DecidableEq

/-- A track inside an overlay source. -/
structure OvTrack where
  name : String
  points : List OvPoint
deriving DecidableEq

/-- One overlay source, as pushed by `main`: display name, color, source label,
and its tracks. -/
structure Overlay where
  name : String
  color : String
  source : String
  tracks : List OvTrack
deriving DecidableEq

/-- An overlay `<trkpt>` element (`json2gpx_with_overlay.js` lines 292–301):
fixed `overlay=true` marker and the group's color; no `dtf`. -/
def ovPointBlock (ov : Overlay) (p : OvPoint) : String :=
  "      <trkpt lat=\"" ++ Int.repr p.lat ++ "\" lon=\"" ++ Int.repr p.lon
    ++ "\">\n        <time>" ++ timestampToISO p.att
    ++ "</time>\n        <extensions>\n          <overlay>true</overlay>\n          <color>"
    ++ ov.color ++ "</color>\n        </extensions>\n      </trkpt>\n"

/-- One overlay `<trk>` block (`json2gpx_with_overlay.js` lines 286–305).  The
name parts are escaped; the description embeds `overlay.source` verbatim. -/
def overlayTrackBlock (ov : Overlay) (t : OvTrack) : String :=
  "  <trk>\n    <name>" ++ escapeXml ov.name ++ " - " ++ escapeXml t.name
    ++ "</name>\n    <desc>Overlay track from " ++ ov.source
    ++ "</desc>\n    <trkseg>\n"
    ++ t.points.foldl (fun g p => g ++ ovPointBlock ov p) ""
    ++ "    </trkseg>\n  </trk>\n"

/-- The metadata block of the overlay variant (only the fixed description
differs from `gpxHeader`). -/
def gpxHeaderOv (setup : RaceSetup) (now : String) : String :=
  "<?xml version=\"1.0\" encoding=\"UTF-8\"?>\n<gpx version=\"1.1\" creator=\"decyb-gpx-converter\" xmlns=\"http://www.topografix.com/GPX/1/1\">\n  <metadata>\n    <name>"
    ++ escapeXml (jsOr setup.title "Sailing Race")
    ++ "</name>\n    <time>" ++ now
    ++ "</time>\n    <desc>Converted from race data using decyb-gpx-converter with overlays</desc>\n  </metadata>\n"

/-- `generateGPXWithOverlays` from `json2gpx_with_overlay.js` (lines 206–312):
header, boat tracks, then for each overlay with a nonempty `tracks` array its
overlay track blocks, then the closing tag. -/
def generateGPXWithOverlays (positions : List PositionRecord) (raceSetup : RaceSetup)
    (overlays : List Overlay) (now : String) : String :=
  (overlays.foldl
    (fun gpx ov =>
      if ov.tracks.length > 0 then
        ov.tracks.foldl (fun g t => g ++ overlayTrackBlock ov t) gpx
      else gpx)
    (positions.foldl (fun gpx boat => gpx ++ boatBlock raceSetup boat)
      (gpxHeaderOv raceSetup now))) ++ "</gpx>"

/-! ## Decomposing generated XML into pieces

Generated fragments are concatenations of fixed template text (`Pc.fix`) and
spliced values that contain no `<` (`Pc.var`).  Occurrences of a tag pattern in
such a fragment are exactly the occurrences in its fixed pieces. -/

/-- A piece of generated text: fixed template text or a spliced `<`-free value. -/
inductive Pc where
  | fix (s : String)
  | var (s : String)
deriving DecidableEq

def pcStr : Pc → String
  | .fix s => s
  | .var s => s

def pcFix : Pc → Option String
  | .fix s => some s
  | .var _ => none

theorem countSubStr_pcs {pat : String} {tl : List Char} (hp : pat.data = ltC :: tl) :
    ∀ l : List Pc, (∀ s, Pc.var s ∈ l → noLt s) →
      (∀ s, Pc.fix s ∈ l → sepOK pat.data s.data) →
      countSubStr pat (strJoin (l.map pcStr)) =
        ((l.filterMap pcFix).map (countSubStr pat)).sum
  | [], _, _ => rfl
  | p :: ps, hvar, hfix => by
    have hsep : sepOK pat.data (pcStr p).data := by
      cases p with
      | fix s => exact hfix s (by simp)
      | var s => exact sepOK_of_noLt hp (hvar s (by simp))
    have IH := countSubStr_pcs hp ps (fun s hs => hvar s (by simp [hs]))
      (fun s hs => hfix s (by simp [hs]))
    have hstep : countSubStr pat (strJoin ((p :: ps).map pcStr)) =
        countSubStr pat (pcStr p) + countSubStr pat (strJoin (ps.map pcStr)) := by
      show countSubStr pat (pcStr p ++ strJoin (ps.map pcStr)) = _
      unfold countSubStr
      rw [String.data_append,
        countSub_append_sep (by rw [hp]; exact List.cons_ne_nil _ _) _ _ hsep]
    rw [hstep, IH]
    cases p with
    | fix s => simp [pcStr, pcFix]
    | var s =>
      have h0 : countSubStr pat (pcStr (Pc.var s)) = 0 :=
        countSubStr_zero_of_noLt hp (hvar s (by simp))
      rw [h0]
      simp [pcFix]

/-- Fold-with-append as used by the `forEach (... gpx += ...)` loops. -/
theorem foldl_append_hom {β : Type} (step : String → β → String) (f : β → String)
    (hstep : ∀ g x, step g x = g ++ f x) :
    ∀ (l : List β) (init : String), l.foldl step init = init ++ strJoin (l.map f)
  | [], init => (strAppend_empty init).symm
  | x :: xs, init => by
    show List.foldl step (step init x) xs = init ++ strJoin (f x :: xs.map f)
    rw [foldl_append_hom step f hstep xs (step init x), hstep]
    show (init ++ f x) ++ strJoin (xs.map f) = init ++ (f x ++ strJoin (xs.map f))
    rw [strAppend_assoc]


/-- The pieces of `pointBlock`. -/
def pointPcs (m : Moment) : List Pc :=
  [.fix "      <trkpt lat=\"", .var (Int.repr m.lat), .fix "\" lon=\"",
   .var (Int.repr m.lon), .fix "\">\n        <time>", .var (timestampToISO m.att),
   .fix "</time>\n        <extensions>\n          <dtf>", .var (Int.repr (m.dtf.getD 0)),
   .fix "</dtf>"]
  ++ (match m.alt with
      | some v => [.fix "\n          <ele>", .var (Int.repr v), .fix "</ele>"]
      | none => [])
  ++ (match m.lap with
      | some v => [.fix "\n          <lap>", .var (Int.repr v), .fix "</lap>"]
      | none => [])
  ++ (match m.pc with
      | some v => [.fix "\n          <pc>", .var (Int.repr v), .fix "</pc>"]
      | none => [])
  ++ [.fix "\n        </extensions>\n      </trkpt>\n"]

theorem pointBlock_eq_pcs (m : Moment) : pointBlock m = strJoin ((pointPcs m).map pcStr) := by
  rcases m with ⟨lat, lon, att, dtf, alt, lap, pc⟩
  cases alt <;> cases lap <;> cases pc <;>
    simp [pointBlock, pointPcs, strJoin, pcStr, strAppend_assoc, strAppend_empty]

/-- Pieces of the optional tag segment of a moment field. -/
theorem optSeg_var {v : Option Int} {o c s : String}
    (hs : Pc.var s ∈ (match v with
      | some x => [Pc.fix o, Pc.var (Int.repr x), Pc.fix c]
      | none => ([] : List Pc))) : ∃ x : Int, s = Int.repr x := by
  cases v with
  | none => simp at hs
  | some x =>
    simp at hs
    exact ⟨x, hs⟩

theorem optSeg_fix {v : Option Int} {o c s : String}
    (hs : Pc.fix s ∈ (match v with
      | some x => [Pc.fix o, Pc.var (Int.repr x), Pc.fix c]
      | none => ([] : List Pc))) : s = o ∨ s = c := by
  cases v with
  | none => simp at hs
  | some x =>
    simp at hs
    exact hs

/-- Every spliced piece of a point block is `<`-free. -/
theorem pointPcs_var (m : Moment) : ∀ s, Pc.var s ∈ pointPcs m → noLt s := by
  intro s hs
  unfold pointPcs at hs
  rcases List.mem_append.mp hs with hs | htl
  · rcases List.mem_append.mp hs with hs | hpc
    · rcases List.mem_append.mp hs with hs | hlap
      · rcases List.mem_append.mp hs with hbase | halt
        · simp at hbase
          rcases hbase with rfl | rfl | rfl | rfl
          · exact noLt_intRepr _
          · exact noLt_intRepr _
          · exact noLt_timestampToISO _
          · exact noLt_intRepr _
        · obtain ⟨x, rfl⟩ := optSeg_var halt
          exact noLt_intRepr _
      · obtain ⟨x, rfl⟩ := optSeg_var hlap
        exact noLt_intRepr _
    · obtain ⟨x, rfl⟩ := optSeg_var hpc
      exact noLt_intRepr _
  · simp at htl

/-- The fixed pieces of a point block all occur in this closed list. -/
def pointFixList : List String :=
  ["      <trkpt lat=\"", "\" lon=\"", "\">\n        <time>",
   "</time>\n        <extensions>\n          <dtf>", "</dtf>",
   "\n          <ele>", "</ele>", "\n          <lap>", "</lap>",
   "\n          <pc>", "</pc>", "\n        </extensions>\n      </trkpt>\n"]

theorem pointPcs_fix_mem (m : Moment) : ∀ s, Pc.fix s ∈ pointPcs m → s ∈ pointFixList := by
  intro s hs
  unfold pointPcs at hs
  rcases List.mem_append.mp hs with hs | htl
  · rcases List.mem_append.mp hs with hs | hpc
    · rcases List.mem_append.mp hs with hs | hlap
      · rcases List.mem_append.mp hs with hbase | halt
        · simp at hbase
          rcases hbase with rfl | rfl | rfl | rfl | rfl <;> simp [pointFixList]
        · rcases optSeg_fix halt with rfl | rfl <;> simp [pointFixList]
      · rcases optSeg_fix hlap with rfl | rfl <;> simp [pointFixList]
    · rcases optSeg_fix hpc with rfl | rfl <;> simp [pointFixList]
  · simp at htl
    subst htl
    simp [pointFixList]

theorem countSubStr_pointBlock {pat : String} {tl : List Char} (hp : pat.data = ltC :: tl)
    (hfix : ∀ s ∈ pointFixList, sepOK pat.data s.data) (m : Moment) :
    countSubStr pat (pointBlock m) =
      (((pointPcs m).filterMap pcFix).map (countSubStr pat)).sum := by
  rw [pointBlock_eq_pcs]
  exact countSubStr_pcs hp _ (pointPcs_var m) (fun s hs => hfix s (pointPcs_fix_mem m s hs))

/-- `pat` is a tag pattern: its text starts with `<`. -/
def ltHead (pat : String) : Prop := ∃ t : List Char, pat.data = ltC :: t

theorem countSubStr_pointBlock_of_ltHead {pat : String} (hp : ltHead pat)
    (hfix : ∀ s ∈ pointFixList, sepOK pat.data s.data) (m : Moment) :
    countSubStr pat (pointBlock m) =
      (((pointPcs m).filterMap pcFix).map (countSubStr pat)).sum := by
  obtain ⟨t, ht⟩ := hp
  exact countSubStr_pointBlock ht hfix m

theorem pointPcs_filterMap (m : Moment) :
    (pointPcs m).filterMap pcFix =
      ["      <trkpt lat=\"", "\" lon=\"", "\">\n        <time>",
       "</time>\n        <extensions>\n          <dtf>", "</dtf>"]
      ++ (match m.alt with
          | some _ => ["\n          <ele>", "</ele>"]
          | none => [])
      ++ (match m.lap with
          | some _ => ["\n          <lap>", "</lap>"]
          | none => [])
      ++ (match m.pc with
          | some _ => ["\n          <pc>", "</pc>"]
          | none => [])
      ++ ["\n        </extensions>\n      </trkpt>\n"] := by
  rcases m with ⟨lat, lon, att, dtf, alt, lap, pc⟩
  cases alt <;> cases lap <;> cases pc <;> simp [pointPcs, pcFix]

theorem count_point_dtf (m : Moment) : countSubStr "<dtf>" (pointBlock m) = 1 := by
  rw [countSubStr_pointBlock_of_ltHead ⟨"dtf>".data, by decide⟩ (by decide) m,
    pointPcs_filterMap]
  rcases m with ⟨lat, lon, att, dtf, alt, lap, pc⟩
  cases alt <;> cases lap <;> cases pc <;> (simp [List.map_append, List.sum_append]; try decide)

theorem count_point_ele (m : Moment) :
    countSubStr "<ele>" (pointBlock m) = (if m.alt = none then 0 else 1) := by
  rw [countSubStr_pointBlock_of_ltHead ⟨"ele>".data, by decide⟩ (by decide) m,
    pointPcs_filterMap]
  rcases m with ⟨lat, lon, att, dtf, alt, lap, pc⟩
  cases alt <;> cases lap <;> cases pc <;> (simp [List.map_append, List.sum_append]; try decide)

theorem count_point_lap (m : Moment) :
    countSubStr "<lap>" (pointBlock m) = (if m.lap = none then 0 else 1) := by
  rw [countSubStr_pointBlock_of_ltHead ⟨"lap>".data, by decide⟩ (by decide) m,
    pointPcs_filterMap]
  rcases m with ⟨lat, lon, att, dtf, alt, lap, pc⟩
  cases alt <;> cases lap <;> cases pc <;> (simp [List.map_append, List.sum_append]; try decide)

theorem count_point_pc (m : Moment) :
    countSubStr "<pc>" (pointBlock m) = (if m.pc = none then 0 else 1) := by
  rw [countSubStr_pointBlock_of_ltHead ⟨"pc>".data, by decide⟩ (by decide) m,
    pointPcs_filterMap]
  rcases m with ⟨lat, lon, att, dtf, alt, lap, pc⟩
  cases alt <;> cases lap <;> cases pc <;> (simp [List.map_append, List.sum_append]; try decide)

theorem count_point_trk (m : Moment) : countSubStr "<trk>" (pointBlock m) = 0 := by
  rw [countSubStr_pointBlock_of_ltHead ⟨"trk>".data, by decide⟩ (by decide) m,
    pointPcs_filterMap]
  rcases m with ⟨lat, lon, att, dtf, alt, lap, pc⟩
  cases alt <;> cases lap <;> cases pc <;> (simp [List.map_append, List.sum_append]; try decide)

/-- Pieces of `pointBlock` with the dtf element merged into the fixed text,
usable when the rendered dtf value is the literal `0`. -/
def pointPcs0 (m : Moment) : List Pc :=
  [.fix "      <trkpt lat=\"", .var (Int.repr m.lat), .fix "\" lon=\"",
   .var (Int.repr m.lon), .fix "\">\n        <time>", .var (timestampToISO m.att),
   .fix "</time>\n        <extensions>\n          <dtf>0</dtf>"]
  ++ (match m.alt with
      | some v => [.fix "\n          <ele>", .var (Int.repr v), .fix "</ele>"]
      | none => [])
  ++ (match m.lap with
      | some v => [.fix "\n          <lap>", .var (Int.repr v), .fix "</lap>"]
      | none => [])
  ++ (match m.pc with
      | some v => [.fix "\n          <pc>", .var (Int.repr v), .fix "</pc>"]
      | none => [])
  ++ [.fix "\n        </extensions>\n      </trkpt>\n"]

theorem pointBlock_eq_pcs0 {m : Moment} (h : m.dtf = none) :
    pointBlock m = strJoin ((pointPcs0 m).map pcStr) := by
  rcases m with ⟨lat, lon, att, dtf, alt, lap, pc⟩
  simp only at h
  subst h
  cases alt <;> cases lap <;> cases pc <;>
    simp [pointBlock, pointPcs0, strJoin, pcStr, strAppend_assoc, strAppend_empty,
      show Int.repr 0 = "0" from by decide]

theorem pointPcs0_var (m : Moment) : ∀ s, Pc.var s ∈ pointPcs0 m → noLt s := by
  intro s hs
  unfold pointPcs0 at hs
  rcases List.mem_append.mp hs with hs | htl
  · rcases List.mem_append.mp hs with hs | hpc
    · rcases List.mem_append.mp hs with hs | hlap
      · rcases List.mem_append.mp hs with hbase | halt
        · simp at hbase
          rcases hbase with rfl | rfl | rfl
          · exact noLt_intRepr _
          · exact noLt_intRepr _
          · exact noLt_timestampToISO _
        · obtain ⟨x, rfl⟩ := optSeg_var halt
          exact noLt_intRepr _
      · obtain ⟨x, rfl⟩ := optSeg_var hlap
        exact noLt_intRepr _
    · obtain ⟨x, rfl⟩ := optSeg_var hpc
      exact noLt_intRepr _
  · simp at htl

/-- The fixed pieces of the merged decomposition. -/
def pointFixList0 : List String :=
  ["      <trkpt lat=\"", "\" lon=\"", "\">\n        <time>",
   "</time>\n        <extensions>\n          <dtf>0</dtf>",
   "\n          <ele>", "</ele>", "\n          <lap>", "</lap>",
   "\n          <pc>", "</pc>", "\n        </extensions>\n      </trkpt>\n"]

theorem pointPcs0_fix_mem (m : Moment) : ∀ s, Pc.fix s ∈ pointPcs0 m → s ∈ pointFixList0 := by
  intro s hs
  unfold pointPcs0 at hs
  rcases List.mem_append.mp hs with hs | htl
  · rcases List.mem_append.mp hs with hs | hpc
    · rcases List.mem_append.mp hs with hs | hlap
      · rcases List.mem_append.mp hs with hbase | halt
        · simp at hbase
          rcases hbase with rfl | rfl | rfl | rfl <;> simp [pointFixList0]
        · rcases optSeg_fix halt with rfl | rfl <;> simp [pointFixList0]
      · rcases optSeg_fix hlap with rfl | rfl <;> simp [pointFixList0]
    · rcases optSeg_fix hpc with rfl | rfl <;> simp [pointFixList0]
  · simp at htl
    subst htl
    simp [pointFixList0]

theorem pointPcs0_filterMap (m : Moment) :
    (pointPcs0 m).filterMap pcFix =
      ["      <trkpt lat=\"", "\" lon=\"", "\">\n        <time>",
       "</time>\n        <extensions>\n          <dtf>0</dtf>"]
      ++ (match m.alt with
          | some _ => ["\n          <ele>", "</ele>"]
          | none => [])
      ++ (match m.lap with
          | some _ => ["\n          <lap>", "</lap>"]
          | none => [])
      ++ (match m.pc with
          | some _ => ["\n          <pc>", "</pc>"]
          | none => [])
      ++ ["\n        </extensions>\n      </trkpt>\n"] := by
  rcases m with ⟨lat, lon, att, dtf, alt, lap, pc⟩
  cases alt <;> cases lap <;> cases pc <;> simp [pointPcs0, pcFix]

/-- A moment without a `dtf` field is emitted with the literal `<dtf>0</dtf>`. -/
theorem count_point_dtf0 {m : Moment} (h : m.dtf = none) :
    countSubStr "<dtf>0</dtf>" (pointBlock m) = 1 := by
  have hfix : ∀ s ∈ pointFixList0, sepOK ("<dtf>0</dtf>" : String).data s.data := by decide
  rw [pointBlock_eq_pcs0 h,
    countSubStr_pcs (by decide : ("<dtf>0</dtf>" : String).data = ltC :: "dtf>0</dtf>".data)
      _ (pointPcs0_var m) (fun s hs => hfix s (pointPcs0_fix_mem m s hs)),
    pointPcs0_filterMap]
  rcases m with ⟨lat, lon, att, dtf, alt, lap, pc⟩
  cases alt <;> cases lap <;> cases pc <;> (simp [List.map_append, List.sum_append]; try decide)

theorem pointBlock_split (m : Moment) :
    ∃ x : String, pointBlock m = x ++ "\n        </extensions>\n      </trkpt>\n" :=
  ⟨_, rfl⟩

/-- Tag occurrences never straddle a boundary after a full point block. -/
theorem sepOK_pointBlock {pat : String} (m : Moment)
    (hlen : pat.data.length ≤ 39)
    (ht : sepOK pat.data ("\n        </extensions>\n      </trkpt>\n" : String).data) :
    sepOK pat.data (pointBlock m).data := by
  obtain ⟨x, hx⟩ := pointBlock_split m
  refine sepOK_of_split hx ?_ ht
  have : ("\n        </extensions>\n      </trkpt>\n" : String).data.length = 38 := by decide
  omega

/-- `boatBlock` as a list of pieces: the fixed template text, the three escaped
values, the point blocks of the sorted moments, and the closing text. -/
theorem boatBlock_eq_join (setup : RaceSetup) (boat : PositionRecord) :
    boatBlock setup boat = strJoin
      (["  <trk>\n    <name>", escapeXml (boatNameOf (teamFor setup boat.id) boat.id), " (",
        escapeXml (ownerOf (teamFor setup boat.id)), ")</name>\n    <desc>",
        escapeXml (descOf (teamFor setup boat.id) boat.id), "</desc>\n    <trkseg>\n"]
       ++ (sortMoments boat.moments).map pointBlock
       ++ ["    </trkseg>\n  </trk>\n"]) := by
  unfold boatBlock trkNameContent
  rw [foldl_append_hom (fun g m => g ++ pointBlock m) pointBlock (fun g x => rfl)]
  simp [strJoin_append, strJoin, strAppend_assoc, strAppend_empty]

theorem boatBlock_split (setup : RaceSetup) (boat : PositionRecord) :
    ∃ x : String, boatBlock setup boat = x ++ "    </trkseg>\n  </trk>\n" :=
  ⟨_, rfl⟩

theorem sepOK_boatBlock {pat : String} (setup : RaceSetup) (boat : PositionRecord)
    (hlen : pat.data.length ≤ 24)
    (ht : sepOK pat.data ("    </trkseg>\n  </trk>\n" : String).data) :
    sepOK pat.data (boatBlock setup boat).data := by
  obtain ⟨x, hx⟩ := boatBlock_split setup boat
  refine sepOK_of_split hx ?_ ht
  have : ("    </trkseg>\n  </trk>\n" : String).data.length = 23 := by decide
  omega

/-- Each boat block contains the `<trk>` opener exactly once. -/
theorem count_boatBlock_trk (setup : RaceSetup) (boat : PositionRecord) :
    countSubStr "<trk>" (boatBlock setup boat) = 1 := by
  have hp : ("<trk>" : String).data = ltC :: "trk>".data := by decide
  rw [boatBlock_eq_join, countSubStr_strJoin (by decide)]
  · simp only [List.map_append, List.sum_append]
    rw [show List.map (countSubStr "<trk>")
        ["  <trk>\n    <name>", escapeXml (boatNameOf (teamFor setup boat.id) boat.id), " (",
         escapeXml (ownerOf (teamFor setup boat.id)), ")</name>\n    <desc>",
         escapeXml (descOf (teamFor setup boat.id) boat.id), "</desc>\n    <trkseg>\n"]
      = [countSubStr "<trk>" "  <trk>\n    <name>",
         countSubStr "<trk>" (escapeXml (boatNameOf (teamFor setup boat.id) boat.id)),
         countSubStr "<trk>" " (",
         countSubStr "<trk>" (escapeXml (ownerOf (teamFor setup boat.id))),
         countSubStr "<trk>" ")</name>\n    <desc>",
         countSubStr "<trk>" (escapeXml (descOf (teamFor setup boat.id) boat.id)),
         countSubStr "<trk>" "</desc>\n    <trkseg>\n"] from rfl]
    rw [countSubStr_zero_of_noLt hp (noLt_escapeXml _),
      countSubStr_zero_of_noLt hp (noLt_escapeXml _),
      countSubStr_zero_of_noLt hp (noLt_escapeXml _)]
    have hpts : (List.map (countSubStr "<trk>")
        ((sortMoments boat.moments).map pointBlock)).sum = 0 := by
      apply List.sum_eq_zero
      intro x hx
      rcases List.mem_map.mp hx with ⟨q, hq, rfl⟩
      rcases List.mem_map.mp hq with ⟨mm, hmm, rfl⟩
      exact count_point_trk mm
    rw [hpts]
    decide
  · intro p hpp
    rcases List.mem_append.mp hpp with hs | htail
    · rcases List.mem_append.mp hs with hhead | hpt
      · simp at hhead
        rcases hhead with rfl | rfl | rfl | rfl | rfl | rfl | rfl
        · decide
        · exact sepOK_of_noLt hp (noLt_escapeXml _)
        · decide
        · exact sepOK_of_noLt hp (noLt_escapeXml _)
        · decide
        · exact sepOK_of_noLt hp (noLt_escapeXml _)
        · decide
      · rcases List.mem_map.mp hpt with ⟨mm, hmm, rfl⟩
        exact sepOK_pointBlock mm (by decide) (by decide)
    · simp at htail
      subst htail
      decide

theorem sum_ones {β : Type} : ∀ l : List β, (l.map (fun _ => (1 : Nat))).sum = l.length
  | [] => rfl
  | _ :: xs => by simp [sum_ones xs]; omega

theorem gpxHeader_eq_join (setup : RaceSetup) (now : String) :
    gpxHeader setup now = strJoin
      ["<?xml version=\"1.0\" encoding=\"UTF-8\"?>\n<gpx version=\"1.1\" creator=\"decyb-gpx-converter\" xmlns=\"http://www.topografix.com/GPX/1/1\">\n  <metadata>\n    <name>",
       escapeXml (jsOr setup.title "Sailing Race"),
       "</name>\n    <time>", now,
       "</time>\n    <desc>Converted from race data using decyb-gpx-converter</desc>\n  </metadata>\n"] := by
  unfold gpxHeader
  simp [strJoin, strAppend_assoc, strAppend_empty]

theorem gpxHeader_split (setup : RaceSetup) (now : String) :
    ∃ x : String, gpxHeader setup now = x ++
      "</time>\n    <desc>Converted from race data using decyb-gpx-converter</desc>\n  </metadata>\n" :=
  ⟨_, rfl⟩

theorem sepOK_gpxHeader {pat : String} (setup : RaceSetup) (now : String)
    (hlen : pat.data.length ≤ 90)
    (ht : sepOK pat.data
      ("</time>\n    <desc>Converted from race data using decyb-gpx-converter</desc>\n  </metadata>\n" : String).data) :
    sepOK pat.data (gpxHeader setup now).data := by
  obtain ⟨x, hx⟩ := gpxHeader_split setup now
  refine sepOK_of_split hx ?_ ht
  have : ("</time>\n    <desc>Converted from race data using decyb-gpx-converter</desc>\n  </metadata>\n" : String).data.length = 90 := by decide
  omega

set_option maxRecDepth 4000 in
theorem count_header_trk (setup : RaceSetup) {now : String} (hnow : noLt now) :
    countSubStr "<trk>" (gpxHeader setup now) = 0 := by
  have hp : ("<trk>" : String).data = ltC :: "trk>".data := by decide
  rw [gpxHeader_eq_join, countSubStr_strJoin (by decide)]
  · rw [show List.map (countSubStr "<trk>")
        ["<?xml version=\"1.0\" encoding=\"UTF-8\"?>\n<gpx version=\"1.1\" creator=\"decyb-gpx-converter\" xmlns=\"http://www.topografix.com/GPX/1/1\">\n  <metadata>\n    <name>",
         escapeXml (jsOr setup.title "Sailing Race"),
         "</name>\n    <time>", now,
         "</time>\n    <desc>Converted from race data using decyb-gpx-converter</desc>\n  </metadata>\n"]
      = [countSubStr "<trk>" "<?xml version=\"1.0\" encoding=\"UTF-8\"?>\n<gpx version=\"1.1\" creator=\"decyb-gpx-converter\" xmlns=\"http://www.topografix.com/GPX/1/1\">\n  <metadata>\n    <name>",
         countSubStr "<trk>" (escapeXml (jsOr setup.title "Sailing Race")),
         countSubStr "<trk>" "</name>\n    <time>",
         countSubStr "<trk>" now,
         countSubStr "<trk>" "</time>\n    <desc>Converted from race data using decyb-gpx-converter</desc>\n  </metadata>\n"] from rfl]
    rw [countSubStr_zero_of_noLt hp (noLt_escapeXml _), countSubStr_zero_of_noLt hp hnow]
    decide
  · intro p hp2
    simp at hp2
    rcases hp2 with rfl | rfl | rfl | rfl | rfl
    · decide
    · exact sepOK_of_noLt hp (noLt_escapeXml _)
    · decide
    · exact sepOK_of_noLt hp hnow
    · decide

theorem generateGPX_eq_join (positions : List PositionRecord) (raceSetup : RaceSetup)
    (now : String) :
    generateGPX positions raceSetup now = strJoin
      ([gpxHeader raceSetup now] ++ positions.map (boatBlock raceSetup) ++ ["</gpx>"]) := by
  unfold generateGPX
  rw [foldl_append_hom (fun gpx boat => gpx ++ boatBlock raceSetup boat)
    (boatBlock raceSetup) (fun g x => rfl)]
  simp [strJoin_append, strJoin, strAppend_assoc, strAppend_empty]

theorem count_generateGPX_trk (positions : List PositionRecord) (raceSetup : RaceSetup)
    {now : String} (hnow : noLt now) :
    countSubStr "<trk>" (generateGPX positions raceSetup now) = positions.length := by
  rw [generateGPX_eq_join, countSubStr_strJoin (by decide)]
  · simp only [List.map_append, List.sum_append]
    have h1 : (List.map (countSubStr "<trk>") [gpxHeader raceSetup now]).sum = 0 := by
      simp [count_header_trk raceSetup hnow]
    have h2 : (List.map (countSubStr "<trk>")
        (positions.map (boatBlock raceSetup))).sum = positions.length := by
      rw [List.map_map]
      have hc : positions.map (countSubStr "<trk>" ∘ boatBlock raceSetup)
          = positions.map (fun _ => 1) :=
        List.map_congr_left (fun b _ => count_boatBlock_trk raceSetup b)
      rw [hc, sum_ones]
    have h3 : (List.map (countSubStr "<trk>") ["</gpx>"]).sum = 0 := by decide
    rw [h1, h2, h3]
    omega
  · intro p hp2
    rcases List.mem_append.mp hp2 with hs | htail
    · rcases List.mem_append.mp hs with hh | hb
      · simp at hh
        subst hh
        exact sepOK_gpxHeader raceSetup now (by decide) (by decide)
      · rcases List.mem_map.mp hb with ⟨b, hbm, rfl⟩
        exact sepOK_boatBlock raceSetup b (by decide) (by decide)
    · simp at htail
      subst htail
      decide

/-! ## Lookup and sorting facts -/

theorem getLast?_cons_eq {α : Type} (a : α) :
    ∀ l : List α, (a :: l).getLast? =
      (match l.getLast? with | some u => some u | none => some a)
  | [] => rfl
  | b :: l' => by
    rw [List.getLast?_cons_cons, getLast?_cons_eq b l']
    cases l'.getLast? <;> rfl

theorem buildBoatToTeam_spec :
    ∀ (teams : List TeamRecord) (m : Int → Option TeamRecord) (i : Int),
      (teams.foldl (fun m t => fun j => if j = t.id then some t else m j) m) i =
        (match (teams.filter (fun t => decide (t.id = i))).getLast? with
         | some t => some t
         | none => m i)
  | [], _, _ => rfl
  | t :: ts, m, i => by
    show (ts.foldl _ (fun j => if j = t.id then some t else m j)) i = _
    rw [buildBoatToTeam_spec ts _ i]
    by_cases hid : t.id = i
    · have hf : (t :: ts).filter (fun u => decide (u.id = i))
          = t :: ts.filter (fun u => decide (u.id = i)) := by
        simp [List.filter_cons, hid]
      rw [hf, getLast?_cons_eq]
      cases (ts.filter (fun u => decide (u.id = i))).getLast? with
      | some u => rfl
      | none => simp [hid]
    · have hf : (t :: ts).filter (fun u => decide (u.id = i))
          = ts.filter (fun u => decide (u.id = i)) := by
        simp [List.filter_cons, hid]
      rw [hf]
      cases (ts.filter (fun u => decide (u.id = i))).getLast? with
      | some u => rfl
      | none =>
        show (if i = t.id then some t else m i) = m i
        rw [if_neg (fun h : i = t.id => hid h.symm)]

theorem buildBoatToTeam_eq (teams : List TeamRecord) (i : Int) :
    buildBoatToTeam teams i = (teams.filter (fun t => decide (t.id = i))).getLast? := by
  unfold buildBoatToTeam
  rw [buildBoatToTeam_spec]
  cases (teams.filter (fun t => decide (t.id = i))).getLast? <;> rfl

theorem generateGPXFinal_of_sorted :
    ∀ positions : List PositionRecord,
      (∀ b ∈ positions, b.moments.Pairwise momLE) → generateGPXFinal positions = positions
  | [], _ => rfl
  | b :: bs, h => by
    have hb : sortMoments b.moments = b.moments :=
      List.Sorted.insertionSort_eq (h b (by simp))
    have ih := generateGPXFinal_of_sorted bs (fun x hx => h x (by simp [hx]))
    have hcons : generateGPXFinal (b :: bs)
        = { b with moments := sortMoments b.moments } :: generateGPXFinal bs := rfl
    rw [hcons, hb, ih]

/-- No character of `s` is one of the five reserved XML characters. -/
def noSpecial (s : String) : Prop :=
  ∀ c ∈ s.data, c ≠ '&' ∧ c ≠ ltC ∧ c ≠ '>' ∧ c ≠ quotC ∧ c ≠ aposC

instance (s : String) : Decidable (noSpecial s) := by
  unfold noSpecial; infer_instance

theorem noSpecial_append {a b : String} (ha : noSpecial a) (hb : noSpecial b) :
    noSpecial (a ++ b) := by
  intro c hc
  rw [String.data_append] at hc
  rcases List.mem_append.mp hc with h | h
  · exact ha c h
  · exact hb c h

theorem noSpecial_intRepr (i : Int) : noSpecial (Int.repr i) := escapeXml_intRepr_aux i

theorem escapeXml_of_noSpecial {s : String} (h : noSpecial s) : escapeXml s = s :=
  escapeXml_eq_self h

/-- The overlay section emitted for one overlay source. -/
def ovSection (ov : Overlay) : String :=
  if ov.tracks.length > 0 then strJoin (ov.tracks.map (overlayTrackBlock ov)) else ""

theorem generateGPXWithOverlays_eq (positions : List PositionRecord)
    (raceSetup : RaceSetup) (overlays : List Overlay) (now : String) :
    generateGPXWithOverlays positions raceSetup overlays now =
      gpxHeaderOv raceSetup now ++ (strJoin (positions.map (boatBlock raceSetup))
        ++ (strJoin (overlays.map ovSection) ++ "</gpx>")) := by
  unfold generateGPXWithOverlays
  rw [foldl_append_hom (fun gpx boat => gpx ++ boatBlock raceSetup boat)
    (boatBlock raceSetup) (fun g x => rfl)]
  rw [foldl_append_hom _ ovSection (fun g ov => by
    unfold ovSection
    by_cases h : ov.tracks.length > 0
    · rw [if_pos h, if_pos h,
        foldl_append_hom (fun g2 t => g2 ++ overlayTrackBlock ov t)
          (overlayTrackBlock ov) (fun g2 x => rfl)]
    · rw [if_neg h, if_neg h, strAppend_empty])]
  rw [strAppend_assoc, strAppend_assoc]

/-! ## Claims -/

/-- C2: for every boat, the emitted points are the boat's moments sorted by
timestamp in non-decreasing order, and moments with equal timestamps keep their
original relative order: for every timestamp, the subsequence of moments
carrying it is unchanged by the sort. -/
theorem sortMoments_sorted_stable (ms : List Moment) :
    (sortMoments ms).Pairwise momLE ∧
    ∀ t : Int, (sortMoments ms).filter (fun m => decide (m.att = t)) =
      ms.filter (fun m => decide (m.att = t)) := by
  constructor
  · exact List.sorted_insertionSort momLE ms
  · intro t
    have hsub : (ms.filter (fun m => decide (m.att = t))).Sublist
        (List.insertionSort momLE ms) := by
      apply List.sublist_insertionSort
      · apply List.pairwise_of_forall_mem_list
        intro a ha b hb
        have ha' := (List.mem_filter.mp ha).2
        have hb' := (List.mem_filter.mp hb).2
        simp at ha' hb'
        unfold momLE
        omega
      · exact List.filter_sublist ms
    have hsub2 : (ms.filter (fun m => decide (m.att = t))).Sublist
        ((List.insertionSort momLE ms).filter (fun m => decide (m.att = t))) := by
      have h2 := hsub.filter (fun m => decide (m.att = t))
      rwa [List.filter_filter, show (fun a : Moment => decide (a.att = t) && decide (a.att = t))
        = (fun a : Moment => decide (a.att = t)) from funext (fun a => Bool.and_self _)] at h2
    have hlen : ((List.insertionSort momLE ms).filter (fun m => decide (m.att = t))).length
        = (ms.filter (fun m => decide (m.att = t))).length :=
      ((List.perm_insertionSort momLE ms).filter (fun m => decide (m.att = t))).length_eq
    exact (hsub2.eq_of_length hlen.symm).symm

/-- A boat whose moments arrive out of timestamp order: `generateGPX` reorders
its moments array in place, so the input is not left unchanged. -/
def demoUnsorted : List PositionRecord :=
  [⟨1, [⟨0, 0, 2, none, none, none, none⟩, ⟨0, 0, 1, none, none, none, none⟩]⟩]

/-- C5 counterexample: the converter mutates its input — `boat.moments.sort`
sorts in place, so after `generateGPX` the moments sequence of a boat whose
moments were not already sorted differs from the original. -/
theorem generateGPX_mutates_moments : generateGPXFinal demoUnsorted ≠ demoUnsorted := by
  decide

/-- C5 (amended): `generateGPX` leaves boat ids and the multiset of each boat's
moments unchanged, but sorts each moments array in place by timestamp; the
positions input is left fully unchanged exactly when every boat's moments were
already sorted. -/
theorem generateGPX_final_state (positions : List PositionRecord) :
    List.Forall₂ (fun b b' => b.id = b'.id ∧ b.moments.Perm b'.moments)
      positions (generateGPXFinal positions) ∧
    ((∀ b ∈ positions, b.moments.Pairwise momLE) → generateGPXFinal positions = positions) := by
  constructor
  · unfold generateGPXFinal
    induction positions with
    | nil => exact List.Forall₂.nil
    | cons b bs ih =>
      exact List.Forall₂.cons ⟨rfl, (List.perm_insertionSort momLE b.moments).symm⟩ ih
  · exact generateGPXFinal_of_sorted positions

/-- A position list whose moments are already sorted by timestamp. -/
def demoSorted : List PositionRecord :=
  [⟨1, [⟨0, 0, 1, none, none, none, none⟩, ⟨0, 0, 2, none, none, none, none⟩]⟩]

theorem generateGPX_final_state_witness :
    (∀ b ∈ demoSorted, b.moments.Pairwise momLE) ∧
    generateGPXFinal demoSorted = demoSorted :=
  ⟨by decide, (generateGPX_final_state demoSorted).2 (by decide)⟩

/-- C6: when several team records share an id, the lookup resolves to the last
one in iteration order, and that record is the one whose fields feed the
matching boat's track name and description. -/
theorem buildBoatToTeam_last_wins (teams : List TeamRecord) (bid : Int)
    (title : Option String) (t : TeamRecord)
    (h : (teams.filter (fun u => decide (u.id = bid))).getLast? = some t) :
    buildBoatToTeam teams bid = some t ∧
    teamFor ⟨title, some teams⟩ bid = some t ∧
    trkNameContent (teamFor ⟨title, some teams⟩ bid) bid =
      escapeXml (jsOr t.name ("Boat " ++ Int.repr bid)) ++ " ("
        ++ escapeXml (jsOr t.owner "Unknown") ++ ")" ∧
    descOf (teamFor ⟨title, some teams⟩ bid) bid = descOf (some t) bid := by
  have h1 : buildBoatToTeam teams bid = some t := by
    rw [buildBoatToTeam_eq]; exact h
  have h2 : teamFor ⟨title, some teams⟩ bid = some t := by
    unfold teamFor
    simpa using h1
  exact ⟨h1, h2, by rw [h2]; rfl, by rw [h2]⟩

/-- Two teams sharing id 1; the second must win. -/
def demoDupTeams : List TeamRecord :=
  [⟨1, some "First", some "O1", none, none, none⟩,
   ⟨1, some "Second", some "O2", none, none, none⟩]

theorem buildBoatToTeam_last_wins_witness :
    ((demoDupTeams.filter (fun u => decide (u.id = 1))).getLast?
      = some ⟨1, some "Second", some "O2", none, none, none⟩) ∧
    (buildBoatToTeam demoDupTeams 1 = some ⟨1, some "Second", some "O2", none, none, none⟩ ∧
     teamFor ⟨none, some demoDupTeams⟩ 1 = some ⟨1, some "Second", some "O2", none, none, none⟩ ∧
     trkNameContent (teamFor ⟨none, some demoDupTeams⟩ 1) 1 =
       escapeXml (jsOr (some "Second") ("Boat " ++ Int.repr 1)) ++ " ("
         ++ escapeXml (jsOr (some "O2") "Unknown") ++ ")" ∧
     descOf (teamFor ⟨none, some demoDupTeams⟩ 1) 1 =
       descOf (some ⟨1, some "Second", some "O2", none, none, none⟩) 1) :=
  ⟨by decide, buildBoatToTeam_last_wins demoDupTeams 1 none _ (by decide)⟩

/-- C8: the track extractor is total and every track it returns carries at
least one point — a track block with zero extracted points contributes no
track at all. -/
theorem parseGpxTrack_tracks_nonempty (s : String) (t : OverlayTrack)
    (h : t ∈ parseGpxTrack s) : 0 < t.points.length := by
  unfold parseGpxTrack at h
  have := (List.mem_filter.mp h).2
  simpa using this

theorem parseGpxTrack_tracks_nonempty_witness :
    ((⟨"A", [⟨"1", "2", some "T"⟩]⟩ : OverlayTrack) ∈
        parseGpxTrack "<trk><name>A</name><trkpt lat=\"1\" lon=\"2\"><time>T</time></trkpt></trk>") ∧
    0 < (⟨"A", [⟨"1", "2", some "T"⟩]⟩ : OverlayTrack).points.length :=
  ⟨by decide, parseGpxTrack_tracks_nonempty
    "<trk><name>A</name><trkpt lat=\"1\" lon=\"2\"><time>T</time></trkpt></trk>"
    ⟨"A", [⟨"1", "2", some "T"⟩]⟩ (by decide)⟩

/-- C1: the output of `generateGPX` contains exactly one `<trk>` opener per
position record (a boat with an empty moments list still yields one), and the
document is the header followed by the per-boat track blocks in the order of
the input array, followed by the closing tag.  The hypothesis records that the
generation timestamp — an ISO date string — contains no `<`. -/
theorem generateGPX_track_count (positions : List PositionRecord)
    (raceSetup : RaceSetup) (now : String) (hnow : noLt now) :
    countSubStr "<trk>" (generateGPX positions raceSetup now) = positions.length ∧
    generateGPX positions raceSetup now =
      gpxHeader raceSetup now ++ (strJoin (positions.map (boatBlock raceSetup)) ++ "</gpx>") := by
  refine ⟨count_generateGPX_trk positions raceSetup hnow, ?_⟩
  rw [generateGPX_eq_join]
  simp [strJoin_append, strJoin, strAppend_assoc, strAppend_empty]

/-- An empty-moments boat and a one-moment boat for evaluating the converter. -/
def demoPositions : List PositionRecord :=
  [⟨1, [⟨22, -158, 1753333200, some 0, none, none, none⟩]⟩, ⟨2, []⟩]

def demoSetup : RaceSetup :=
  ⟨some "Test", some [⟨1, some "Aimant de Fille", some "Steven Ernest", some "J/145",
    some "US", none⟩]⟩

def demoNow : String := "2025-07-24T01:00:00.000Z"

theorem generateGPX_track_count_witness :
    noLt demoNow ∧
    (countSubStr "<trk>" (generateGPX demoPositions demoSetup demoNow) = 2 ∧
     generateGPX demoPositions demoSetup demoNow =
       gpxHeader demoSetup demoNow ++
         (strJoin (demoPositions.map (boatBlock demoSetup)) ++ "</gpx>")) :=
  ⟨by decide, generateGPX_track_count demoPositions demoSetup demoNow (by decide)⟩

/-- C3: every emitted point carries a `dtf` element; `ele`, `lap` and `pc`
elements appear exactly when the source moment carries `alt`, `lap` and `pc`
respectively (never as empty placeholders); and a moment without `dtf` is
emitted with the literal `<dtf>0</dtf>`. -/
theorem pointBlock_extensions (m : Moment) :
    countSubStr "<dtf>" (pointBlock m) = 1 ∧
    countSubStr "<ele>" (pointBlock m) = (if m.alt = none then 0 else 1) ∧
    countSubStr "<lap>" (pointBlock m) = (if m.lap = none then 0 else 1) ∧
    countSubStr "<pc>" (pointBlock m) = (if m.pc = none then 0 else 1) ∧
    (m.dtf = none → countSubStr "<dtf>0</dtf>" (pointBlock m) = 1) :=
  ⟨count_point_dtf m, count_point_ele m, count_point_lap m, count_point_pc m,
   fun h => count_point_dtf0 h⟩

/-- A moment with `alt` present but `dtf`, `lap`, `pc` absent. -/
def demoMomentEle : Moment := ⟨1, 2, 3, none, some 5, none, none⟩

theorem pointBlock_extensions_witness :
    countSubStr "<dtf>" (pointBlock demoMomentEle) = 1 ∧
    countSubStr "<ele>" (pointBlock demoMomentEle) = 1 ∧
    countSubStr "<lap>" (pointBlock demoMomentEle) = 0 ∧
    countSubStr "<pc>" (pointBlock demoMomentEle) = 0 ∧
    countSubStr "<dtf>0</dtf>" (pointBlock demoMomentEle) = 1 :=
  ⟨(pointBlock_extensions demoMomentEle).1,
   (pointBlock_extensions demoMomentEle).2.1,
   (pointBlock_extensions demoMomentEle).2.2.1,
   (pointBlock_extensions demoMomentEle).2.2.2.1,
   (pointBlock_extensions demoMomentEle).2.2.2.2 rfl⟩

/-- An overlay whose source label contains a double quote. -/
def demoOverlayQuote : Overlay := ⟨"Ov", "FF0000", "a\"b", [⟨"T", [⟨1, 2, 0⟩]⟩]⟩

set_option maxRecDepth 8000 in
/-- C4 counterexample: the overlay track description embeds the overlay source
verbatim — a `"` in the source appears raw in the output text and no `&quot;`
entity is produced anywhere, so not every inserted text has the five reserved
characters replaced. -/
theorem overlay_desc_unescaped :
    countSubStr "Overlay track from a\"b"
      (generateGPXWithOverlays [] ⟨none, none⟩ [demoOverlayQuote] "NOW") = 1 ∧
    countSubStr "&quot;"
      (generateGPXWithOverlays [] ⟨none, none⟩ [demoOverlayQuote] "NOW") = 0 := by
  decide

/-- C4 (amended): every text inserted through `escapeXml` — titles, track
names, and boat-track descriptions — has the five reserved XML characters
replaced character-wise by their entities (`&amp;`, `&lt;`, `&gt;`, `&quot;`,
`&apos;`); the overlay track description, however, embeds the overlay source
unescaped. -/
theorem escapeXml_replaces_reserved (s : String) :
    (escapeXml s).data = escListAll s.data ∧
    escCharList '&' = "&amp;".data ∧ escCharList ltC = "&lt;".data ∧
    escCharList '>' = "&gt;".data ∧ escCharList quotC = "&quot;".data ∧
    escCharList aposC = "&apos;".data ∧
    (∀ ov : Overlay, ∀ t : OvTrack, ∃ x : String,
      overlayTrackBlock ov t =
        (x ++ ("</name>\n    <desc>Overlay track from " ++ ov.source)) ++
          ("</desc>\n    <trkseg>\n"
            ++ (t.points.foldl (fun g p => g ++ ovPointBlock ov p) ""
              ++ "    </trkseg>\n  </trk>\n"))) :=
  ⟨escapeXml_data s, by decide, by decide, by decide, by decide, by decide,
   fun ov t => ⟨"  <trk>\n    <name>" ++ escapeXml ov.name ++ " - " ++ escapeXml t.name, by
    unfold overlayTrackBlock
    simp [strAppend_assoc]⟩⟩

/-- C7: a boat whose id matches no team gets the name `Boat {id} (Unknown)` and
the fixed description with `Unknown` owner, model and country and no sail
field. -/
theorem unknown_team_fallback (setup : RaceSetup) (b : PositionRecord)
    (h : teamFor setup b.id = none) :
    trkNameContent (teamFor setup b.id) b.id = "Boat " ++ (Int.repr b.id ++ " (Unknown)") ∧
    escapeXml (descOf (teamFor setup b.id) b.id) =
      "Boat ID: " ++ (Int.repr b.id
        ++ ", Owner: Unknown, Model: Unknown, Country: Unknown") := by
  have hname : noSpecial ("Boat " ++ Int.repr b.id) :=
    noSpecial_append (by decide) (noSpecial_intRepr b.id)
  constructor
  · rw [h]
    unfold trkNameContent boatNameOf ownerOf
    rw [escapeXml_of_noSpecial hname, show escapeXml "Unknown" = "Unknown" from by decide]
    simp [strAppend_assoc]
  · rw [h]
    unfold descOf sailOf ownerOf modelOf countryOf
    simp only [if_neg (by simp : ¬("" : String) ≠ "")]
    rw [escapeXml_of_noSpecial]
    · simp [strAppend_assoc]
    · refine noSpecial_append (noSpecial_append (noSpecial_append (noSpecial_append
        (noSpecial_append (noSpecial_append (noSpecial_append (by decide)
          (noSpecial_intRepr b.id)) (by decide)) (by decide)) (by decide)) (by decide))
            (by decide)) (by decide)

theorem unknown_team_fallback_witness :
    (teamFor ⟨none, none⟩ 7 = none) ∧
    (trkNameContent (teamFor ⟨none, none⟩ 7) 7 = "Boat " ++ (Int.repr 7 ++ " (Unknown)") ∧
     escapeXml (descOf (teamFor ⟨none, none⟩ 7) 7) =
       "Boat ID: " ++ (Int.repr 7 ++ ", Owner: Unknown, Model: Unknown, Country: Unknown")) :=
  ⟨rfl, unknown_team_fallback ⟨none, none⟩ ⟨7, []⟩ rfl⟩

/-- C9: both converters are deterministic functions of their inputs, and the
generation timestamp occupies a single slot in the output: the whole document
factors as fixed text around `now`, so two runs on identical inputs produce
byte-identical output except for that timestamp. -/
theorem generateGPX_time_factored (positions : List PositionRecord)
    (raceSetup : RaceSetup) (overlays : List Overlay) :
    (∃ a b : String, ∀ now : String,
      generateGPX positions raceSetup now = a ++ (now ++ b)) ∧
    (∃ a b : String, ∀ now : String,
      generateGPXWithOverlays positions raceSetup overlays now = a ++ (now ++ b)) := by
  constructor
  · refine ⟨"<?xml version=\"1.0\" encoding=\"UTF-8\"?>\n<gpx version=\"1.1\" creator=\"decyb-gpx-converter\" xmlns=\"http://www.topografix.com/GPX/1/1\">\n  <metadata>\n    <name>"
      ++ (escapeXml (jsOr raceSetup.title "Sailing Race") ++ "</name>\n    <time>"),
      "</time>\n    <desc>Converted from race data using decyb-gpx-converter</desc>\n  </metadata>\n"
        ++ (strJoin (positions.map (boatBlock raceSetup)) ++ "</gpx>"), fun now => ?_⟩
    rw [generateGPX_eq_join]
    unfold gpxHeader
    simp [strJoin_append, strJoin, strAppend_assoc, strAppend_empty]
  · refine ⟨"<?xml version=\"1.0\" encoding=\"UTF-8\"?>\n<gpx version=\"1.1\" creator=\"decyb-gpx-converter\" xmlns=\"http://www.topografix.com/GPX/1/1\">\n  <metadata>\n    <name>"
      ++ (escapeXml (jsOr raceSetup.title "Sailing Race") ++ "</name>\n    <time>"),
      "</time>\n    <desc>Converted from race data using decyb-gpx-converter with overlays</desc>\n  </metadata>\n"
        ++ (strJoin (positions.map (boatBlock raceSetup))
          ++ (strJoin (overlays.map ovSection) ++ "</gpx>")), fun now => ?_⟩
    rw [generateGPXWithOverlays_eq]
    unfold gpxHeaderOv
    simp [strAppend_assoc]

/-- C10: when a matching team record exists but a field is absent or empty, the
converter falls back field-wise: the name falls back to `Boat {id}`, owner,
model and country to `Unknown`, and an absent or empty sail is omitted from the
description; a nonempty present field is used as-is. -/
theorem team_field_fallbacks (team : TeamRecord) (bid : Int) :
    ((team.name = none ∨ team.name = some "") →
      boatNameOf (some team) bid = "Boat " ++ Int.repr bid) ∧
    ((team.owner = none ∨ team.owner = some "") → ownerOf (some team) = "Unknown") ∧
    ((team.model = none ∨ team.model = some "") → modelOf (some team) = "Unknown") ∧
    ((team.country = none ∨ team.country = some "") → countryOf (some team) = "Unknown") ∧
    ((team.sail = none ∨ team.sail = some "") → descOf (some team) bid =
      "Boat ID: " ++ Int.repr bid ++ ", Owner: " ++ ownerOf (some team) ++ ", Model: "
        ++ modelOf (some team) ++ ", Country: " ++ countryOf (some team)) ∧
    (∀ s : String, team.name = some s → s ≠ "" → boatNameOf (some team) bid = s) := by
  refine ⟨?_, ?_, ?_, ?_, ?_, ?_⟩
  · rintro (h | h) <;> simp [boatNameOf, jsOr, h]
  · rintro (h | h) <;> simp [ownerOf, jsOr, h]
  · rintro (h | h) <;> simp [modelOf, jsOr, h]
  · rintro (h | h) <;> simp [countryOf, jsOr, h]
  · rintro (h | h) <;> simp [descOf, sailOf, jsOr, h]
  · intro s hs hne
    simp [boatNameOf, jsOr, hs, hne]

/-- A matched team with empty name, missing owner, present model, missing
country and empty sail. -/
def demoTeamPartial : TeamRecord := ⟨1, some "", none, some "X40", none, some ""⟩

theorem team_field_fallbacks_witness :
    boatNameOf (some demoTeamPartial) 1 = "Boat " ++ Int.repr 1 ∧
    ownerOf (some demoTeamPartial) = "Unknown" ∧
    modelOf (some demoTeamPartial) = "X40" ∧
    descOf (some demoTeamPartial) 1 =
      "Boat ID: " ++ Int.repr 1 ++ ", Owner: " ++ ownerOf (some demoTeamPartial) ++ ", Model: "
        ++ modelOf (some demoTeamPartial) ++ ", Country: " ++ countryOf (some demoTeamPartial) :=
  ⟨(team_field_fallbacks demoTeamPartial 1).1 (Or.inr rfl),
   (team_field_fallbacks demoTeamPartial 1).2.1 (Or.inl rfl),
   by decide,
   (team_field_fallbacks demoTeamPartial 1).2.2.2.2.1 (Or.inr rfl)⟩
